import Mathlib

/-!
Verification of the `deepilla/itunes` resolution pipeline (itunes.go).

The library resolves an iTunes directory-page URL to the underlying RSS feed
URL: it fetches the page, dispatches on the Content-Type media type, extracts
the feed URL from HTML (`processHTML`), or follows a structured-redirect
plist document (`processXML`) up to `maxRedirects` hops (`processURL`), and
translates the internal end-of-input signal `io.EOF` into the public
`ErrNoFeed` at the boundary (`ToRSSClient`).

Shallow embedding conventions:
- Go `error` values become the inductive `Err`; `io.EOF` is `Err.eof`, the
  public sentinel `ErrNoFeed` is `Err.noFeed`, and every error constructed
  via `errors.New` / `fmt.Errorf` is `Err.msg s` where `s` is its message.
- The external collaborators (HTTP transport, `html.Tokenizer`,
  `bufio.Scanner`, `mime.ParseMediaType`, `url.Parse`) are modelled as
  inputs: a response body carries its token stream and its line split, and
  the environment `Env` carries the transport and the two stdlib parsers.
- Side effects relevant to the claims (transport invocations, body
  opens/closes) are reified as an event trace `List Ev`.
-/

namespace Itunes

/-- Go error values, by identity where identity matters to the code:
`io.EOF`, the public `ErrNoFeed`, and plain message errors. -/
inductive Err where
  | eof
  | noFeed
  | msg (s : String)
deriving DecidableEq, Repr

/-- Message of an error, as used by `fmt` verbs `%s`. -/
def Err.text : Err → String
  | .eof => "EOF"
  | .noFeed => "no feed found"
  | .msg s => s

/-- Result of `fmt`'s `%q` verb on a string with no characters that need
escaping (all strings appearing in these claims are plain printable ASCII). -/
def goQuote (s : String) : String := "\"" ++ s ++ "\""

/-- User-Agent constant `iTunesUA` from itunes.go. -/
def iTunesUA : String := "iTunes/10.1"

/-- Redirect bound `maxRedirects` from itunes.go. -/
def maxRedirects : Nat := 3

/-! ## HTML feed extractor (`processHTML`) -/

/-- One token produced by `html.NewTokenizer(r).Next()` before the
terminating `ErrorToken`: a start tag with its name and attribute list
(in document order, as enumerated by `z.TagAttr`), or any other token
kind (text, end tag, comment, doctype, self-closing tag). -/
inductive HTMLToken where
  | startTag (tag : String) (attrs : List (String × String))
  | other
deriving DecidableEq, Repr

/-- The inner `for hasAttrs` loop of `processHTML`: the first attribute
named exactly `feed-url` whose value is non-empty (`len(val) > 0`). -/
def findFeedURL : List (String × String) → Option String
  | [] => none
  | (attr, val) :: rest =>
    if attr = "feed-url" ∧ val ≠ "" then some val else findFeedURL rest

/-- `processHTML` from itunes.go. The input is the token stream up to (not
including) the first `ErrorToken`, together with `z.Err()` at that point
(`Err.eof` on end of input, or the tokenizer's structural error).
Returns the Go pair `(string, error)`: `("", z.Err())` when the loop
breaks, or the attribute value with a nil error. -/
def processHTML : List HTMLToken → Err → String × Option Err
  | [], tokErr => ("", some tokErr)
  | .startTag tag attrs :: rest, tokErr =>
    if tag = "button" then
      match findFeedURL attrs with
      | some val => (val, none)
      | none => processHTML rest tokErr
    else processHTML rest tokErr
  | .other :: rest, tokErr => processHTML rest tokErr

/-! ## Structured-redirect extractor (`processXML`) -/

/-- The marker line `prevLine` from `processXML`. -/
def markerLine : String := "<key>kind</key><string>Goto</string>"

/-- Go regexp character class `\s`: `[\t\n\f\r ]`. -/
def goIsSpace (c : Char) : Bool :=
  c = ' ' || c = '\t' || c = '\n' || c = '\x0c' || c = '\r'

/-- Literal part of `reGoto` before the capture group. -/
def gotoPre : String := "<key>url</key><string>"

/-- Literal part of `reGoto` after the capture group. -/
def gotoSuf : String := "</string>"

/-- Strips an expected leading character sequence, returning the remainder
on success. -/
def stripLead : List Char → List Char → Option (List Char)
  | [], l => some l
  | _ :: _, [] => none
  | p :: ps, c :: cs => if c = p then stripLead ps cs else none

/-- Strips an expected trailing character sequence, returning the remainder
on success. -/
def stripTrail (suf l : List Char) : Option (List Char) :=
  (stripLead suf.reverse l.reverse).map List.reverse

/-- `reGoto.FindSubmatch` on one line: the anchored pattern
`^<key>url</key><string>(\S+)</string>$`. Because both anchors and both
literals are fixed, a match forces the unique decomposition
`line = gotoPre ++ capture ++ gotoSuf` with the capture non-empty and free
of `\s` characters; the result is the capture group. -/
def reGotoFind (line : String) : Option String :=
  match stripLead gotoPre.data line.data with
  | none => none
  | some rest =>
    match stripTrail gotoSuf.data rest with
    | none => none
    | some mid =>
      if mid ≠ [] ∧ mid.all (fun c => !goIsSpace c) then some ⟨mid⟩ else none

/-- Core of `html.UnescapeString` from golang.org/x/net/html (external
library), restricted to the standard markup character references that can
occur in these plist URLs (`&amp;` `&lt;` `&gt;` `&quot;`); any other `&`
is left as-is, as the library does for unrecognized entities. -/
def unescapeChars : List Char → List Char
  | '&' :: 'a' :: 'm' :: 'p' :: ';' :: rest => '&' :: unescapeChars rest
  | '&' :: 'l' :: 't' :: ';' :: rest => '<' :: unescapeChars rest
  | '&' :: 'g' :: 't' :: ';' :: rest => '>' :: unescapeChars rest
  | '&' :: 'q' :: 'u' :: 'o' :: 't' :: ';' :: rest => '"' :: unescapeChars rest
  | c :: rest => c :: unescapeChars rest
  | [] => []

/-- String-level wrapper for `unescapeChars`, modelling
`html.UnescapeString`. -/
def unescapeString (s : String) : String := ⟨unescapeChars s.data⟩

/-- `processXML` from itunes.go. The input is the list of lines yielded by
`bufio.NewScanner(r)` until `Scan()` returns false, together with the value
of `scanner.Err()` at that point (`none` means clean end of input, in which
case the code substitutes `io.EOF`). Returns the Go pair `(string, error)`. -/
def processXML : List String → Option Err → String × Option Err
  | [], scanErr => ("", some (scanErr.getD .eof))
  | line :: rest, scanErr =>
    if line = markerLine then
      match rest with
      | [] => ("", some (scanErr.getD .eof))
      | next :: rest2 =>
        match reGotoFind next with
        | some cap => (unescapeString cap, none)
        | none => processXML rest2 scanErr
    else processXML rest scanErr

/-! ## Orchestrator (`newRequest`, `fetch`, `processURL`, `ToRSSClient`) -/

/-- The GET request built by `newRequest`: method, target URL, and the
`User-Agent` header it sets. -/
structure Request where
  method : String
  url : String
  userAgent : String
deriving DecidableEq, Repr

/-- Error returned by `http.NewRequest` for a given URL, as seen by
`newRequest`: either a `*url.Error` wrapping an inner cause (the case
`url.Parse` produces), or some other error. -/
inductive ReqErr where
  | urlError (inner : String)
  | plain (s : String)
deriving DecidableEq, Repr

/-- A response body as read by the two extractors: its HTML tokenization
(tokens before the first `ErrorToken`, plus `z.Err()` there) and its line
split (lines scanned, plus `scanner.Err()` after the last; `none` = clean
end of input). Both views describe the same underlying byte stream. -/
structure Body where
  tokens : List HTMLToken
  tokErr : Err
  lines : List String
  scanErr : Option Err
deriving DecidableEq, Repr

/-- An `http.Response` as used by the code: `StatusCode`, the `Status`
string (for a Go client this is `"<code> <reason-phrase-or-default>"`),
the raw `Content-Type` header value, and the body. -/
structure Response where
  statusCode : Nat
  status : String
  contentType : String
  body : Body
deriving DecidableEq, Repr

/-- The environment of one resolution call: the behaviour of
`http.NewRequest` on each URL (`none` = the URL parses), the behaviour of
`mime.ParseMediaType` on each raw Content-Type header (`.ok media` or
`.error cause`), and the injected transport `Client.Do`. All three are
external collaborators of the core. -/
structure Env where
  newReqErr : String → Option ReqErr
  parseMediaType : String → Except String String
  doReq : Request → Except Err Response

/-- Observable events of a resolution call: a transport `Do` invocation for
a URL, and the open/close of the body of the response returned by the
`id`-th successful `Do` call. -/
inductive Ev where
  | doCall (url : String)
  | openBody (id : Nat)
  | closeBody (id : Nat)
deriving DecidableEq, Repr

/-- `newRequest` from itunes.go: on failure of `http.NewRequest`, a
`*url.Error` is unwrapped to its inner cause before being returned;
on success the GET request carries the iTunes `User-Agent` header. -/
def newRequest (env : Env) (u : String) : Except Err Request :=
  match env.newReqErr u with
  | some (.urlError inner) => .error (.msg inner)
  | some (.plain s) => .error (.msg s)
  | none => .ok ⟨"GET", u, iTunesUA⟩

/-- `fetch` from itunes.go, instrumented with the event trace and the
body-id counter `n`. A `newRequest` failure is wrapped as
`bad URL: <cause>`; a transport failure is returned as-is; a non-200
status closes the body immediately and fails with
`HTTP Status <resp.Status>`; otherwise the open response is returned. -/
def fetch (env : Env) (url : String) (n : Nat) :
    Except Err (Response × Nat) × List Ev × Nat :=
  match newRequest env url with
  | .error e => (.error (.msg ("bad URL: " ++ e.text)), [], n)
  | .ok req =>
    match env.doReq req with
    | .error e => (.error e, [.doCall url], n)
    | .ok resp =>
      if resp.statusCode ≠ 200 then
        (.error (.msg ("HTTP Status " ++ resp.status)),
         [.doCall url, .openBody n, .closeBody n], n + 1)
      else
        (.ok (resp, n), [.doCall url, .openBody n], n + 1)

/-- `processURL` from itunes.go, instrumented with the event trace and the
body-id counter. A fetch failure is wrapped as `fetch error: <cause>`.
On success the Content-Type is parsed; `text/html` runs `processHTML`,
`text/xml` / `application/xml` run `processXML` and recurse with the
incremented redirect counter unless it exceeds `maxRedirects`; other media
types fail. The `defer resp.Body.Close()` closes the body when the call
returns, so on the recursive path the close event follows the recursion's
events. -/
def processURL (env : Env) (url : String) (redirects : Nat) (n : Nat) :
    (String × Option Err) × List Ev × Nat :=
  let f := fetch env url n
  match f.1 with
  | .error e =>
    (("", some (.msg ("fetch error: " ++ e.text))), f.2.1, f.2.2)
  | .ok (resp, id) =>
    match env.parseMediaType resp.contentType with
    | .error cause =>
      (("", some (.msg ("bad Content Type " ++ goQuote resp.contentType ++ ": " ++ cause))),
       f.2.1 ++ [.closeBody id], f.2.2)
    | .ok media =>
      if media = "text/html" then
        (processHTML resp.body.tokens resp.body.tokErr, f.2.1 ++ [.closeBody id], f.2.2)
      else if media = "text/xml" ∨ media = "application/xml" then
        let px := processXML resp.body.lines resp.body.scanErr
        match px.2 with
        | some e => (("", some e), f.2.1 ++ [.closeBody id], f.2.2)
        | none =>
          if h : maxRedirects < redirects + 1 then
            (("", some (.msg "too many redirects")), f.2.1 ++ [.closeBody id], f.2.2)
          else
            let rec_ := processURL env px.1 (redirects + 1) f.2.2
            (rec_.1, f.2.1 ++ rec_.2.1 ++ [.closeBody id], rec_.2.2)
      else
        (("", some (.msg ("unexpected Content Type " ++ goQuote resp.contentType))),
         f.2.1 ++ [.closeBody id], f.2.2)
termination_by maxRedirects + 1 - redirects
decreasing_by simp [maxRedirects] at *; omega

/-- The boundary translation in `ToRSSClient`: `if err == io.EOF
then err = ErrNoFeed`. -/
def translateEOF : String × Option Err → String × Option Err
  | (feed, some .eof) => (feed, some .noFeed)
  | p => p

/-- `ToRSSClient` from itunes.go: run `processURL` with redirect counter 0
and translate the internal `io.EOF` signal to the public `ErrNoFeed`. The
trace of the call is returned alongside the Go result pair. -/
def ToRSSClient (env : Env) (url : String) : (String × Option Err) × List Ev :=
  (translateEOF (processURL env url 0 0).1, (processURL env url 0 0).2.1)

/-- URLs of the transport invocations in a trace, in order. -/
def doCalls : List Ev → List String
  | [] => []
  | .doCall u :: rest => u :: doCalls rest
  | .openBody _ :: rest => doCalls rest
  | .closeBody _ :: rest => doCalls rest

/-! ## Hop predicates and step lemmas -/

/-- The environment serves, at `u`, a 200 XML response whose structured
redirect extracts to `next`. -/
def ServesRedirect (env : Env) (u next : String) : Prop :=
  env.newReqErr u = none ∧
  ∃ resp : Response, env.doReq ⟨"GET", u, iTunesUA⟩ = .ok resp ∧
    resp.statusCode = 200 ∧
    (env.parseMediaType resp.contentType = .ok "text/xml" ∨
     env.parseMediaType resp.contentType = .ok "application/xml") ∧
    processXML resp.body.lines resp.body.scanErr = (next, none)

/-- The environment serves, at `u`, a 200 HTML response from which the
feed-button extractor returns `feed`. -/
def ServesFeed (env : Env) (u feed : String) : Prop :=
  env.newReqErr u = none ∧
  ∃ resp : Response, env.doReq ⟨"GET", u, iTunesUA⟩ = .ok resp ∧
    resp.statusCode = 200 ∧
    env.parseMediaType resp.contentType = .ok "text/html" ∧
    processHTML resp.body.tokens resp.body.tokErr = (feed, none)

/-- A redirect chain from `u` through the intermediate targets `vs`
(each hop a structured redirect) ending at a page that serves `feed`. -/
def ChainFrom : Env → String → List String → String → Prop
  | env, u, [], feed => ServesFeed env u feed
  | env, u, v :: vs, feed => ServesRedirect env u v ∧ ChainFrom env v vs feed

/-- Consecutive structured redirects from `u` through the targets `vs`. -/
def RedirectSeq : Env → String → List String → Prop
  | _, _, [] => True
  | env, u, v :: vs => ServesRedirect env u v ∧ RedirectSeq env v vs

theorem fetch_ok {env : Env} {url : String} {resp : Response} (n : Nat)
    (h0 : env.newReqErr url = none)
    (h1 : env.doReq ⟨"GET", url, iTunesUA⟩ = .ok resp)
    (h2 : resp.statusCode = 200) :
    fetch env url n = (.ok (resp, n), [.doCall url, .openBody n], n + 1) := by
  simp [fetch, newRequest, h0, h1, h2]

theorem processURL_feed {env : Env} {u feed : String} (r n : Nat)
    (h : ServesFeed env u feed) :
    processURL env u r n =
      ((feed, none), [Ev.doCall u, .openBody n, .closeBody n], n + 1) := by
  obtain ⟨h0, resp, h1, h2, hct, hext⟩ := h
  rw [processURL]
  simp only [fetch_ok n h0 h1 h2, hct, hext]
  simp

theorem processURL_redirect_step {env : Env} {u v : String} {r : Nat} (n : Nat)
    (h : ServesRedirect env u v) (hr : r + 1 ≤ maxRedirects) :
    processURL env u r n =
      ((processURL env v (r + 1) (n + 1)).1,
       [Ev.doCall u, Ev.openBody n] ++ (processURL env v (r + 1) (n + 1)).2.1 ++
         [Ev.closeBody n],
       (processURL env v (r + 1) (n + 1)).2.2) := by
  obtain ⟨h0, resp, h1, h2, hct, hext⟩ := h
  rw [processURL]
  rcases hct with hct | hct <;>
    simp [fetch_ok n h0 h1 h2, hct, hext, Nat.not_lt.mpr hr]

theorem processURL_limit {env : Env} {u v : String} {r : Nat} (n : Nat)
    (h : ServesRedirect env u v) (hr : maxRedirects < r + 1) :
    processURL env u r n =
      (("", some (.msg "too many redirects")),
       [Ev.doCall u, .openBody n, .closeBody n], n + 1) := by
  obtain ⟨h0, resp, h1, h2, hct, hext⟩ := h
  rw [processURL]
  rcases hct with hct | hct <;>
    simp [fetch_ok n h0 h1 h2, hct, hext, hr]

theorem chain_ok {env : Env} :
    ∀ (vs : List String) (u feed : String) (r n : Nat),
      ChainFrom env u vs feed → r + vs.length ≤ maxRedirects →
      (processURL env u r n).1 = (feed, none)
  | [], u, feed, r, n, h, _ => by
    rw [processURL_feed r n h]
  | v :: vs, u, feed, r, n, h, hlen => by
    obtain ⟨hstep, hrest⟩ := h
    have hr : r + 1 ≤ maxRedirects := by
      simp [List.length_cons] at hlen
      omega
    rw [processURL_redirect_step n hstep hr]
    exact chain_ok vs v feed (r + 1) (n + 1) hrest (by
      simp [List.length_cons] at hlen
      omega)

theorem doCalls_append (a b : List Ev) :
    doCalls (a ++ b) = doCalls a ++ doCalls b := by
  induction a with
  | nil => rfl
  | cons e rest ih => cases e <;> simp [doCalls, ih]

theorem mem_doCalls (u : String) (evs : List Ev) :
    u ∈ doCalls evs ↔ Ev.doCall u ∈ evs := by
  induction evs with
  | nil => simp [doCalls]
  | cons e rest ih => cases e <;> simp [doCalls, ih]

theorem over_limit {env : Env} {u v1 v2 v3 v4 : String} (n : Nat)
    (h : RedirectSeq env u [v1, v2, v3, v4]) :
    processURL env u 0 n =
      (("", some (.msg "too many redirects")),
       [Ev.doCall u, .openBody n]
         ++ ([Ev.doCall v1, .openBody (n + 1)]
           ++ ([Ev.doCall v2, .openBody (n + 2)]
             ++ [Ev.doCall v3, .openBody (n + 3), .closeBody (n + 3)]
             ++ [Ev.closeBody (n + 2)])
           ++ [Ev.closeBody (n + 1)])
         ++ [Ev.closeBody n],
       n + 4) := by
  obtain ⟨h1, h2, h3, h4, -⟩ := h
  rw [processURL_redirect_step n h1 (by simp [maxRedirects])]
  rw [processURL_redirect_step (n + 1) h2 (by simp [maxRedirects])]
  rw [processURL_redirect_step (n + 2) h3 (by simp [maxRedirects])]
  rw [processURL_limit (n + 3) h4 (by simp [maxRedirects])]

theorem processURL_html {env : Env} {u : String} (r n : Nat) {resp : Response}
    (h0 : env.newReqErr u = none)
    (h1 : env.doReq ⟨"GET", u, iTunesUA⟩ = .ok resp)
    (h2 : resp.statusCode = 200)
    (hct : env.parseMediaType resp.contentType = .ok "text/html") :
    processURL env u r n =
      (processHTML resp.body.tokens resp.body.tokErr,
       [Ev.doCall u, .openBody n, .closeBody n], n + 1) := by
  rw [processURL]
  simp [fetch_ok n h0 h1 h2, hct]

theorem fetch_shape (env : Env) (url : String) (n : Nat) :
    (∃ e, fetch env url n = (.error e, [], n)) ∨
    (∃ e, fetch env url n = (.error e, [Ev.doCall url], n)) ∨
    (∃ e, fetch env url n = (.error e, [Ev.doCall url, .openBody n, .closeBody n], n + 1)) ∨
    (∃ resp, fetch env url n = (.ok (resp, n), [Ev.doCall url, .openBody n], n + 1)) := by
  unfold fetch newRequest
  rcases env.newReqErr url with _ | re
  · rcases hdo : env.doReq ⟨"GET", url, iTunesUA⟩ with e | resp
    · exact Or.inr (Or.inl ⟨e, by simp [hdo]⟩)
    · by_cases hs : resp.statusCode = 200
      · exact Or.inr (Or.inr (Or.inr ⟨resp, by simp [hdo, hs]⟩))
      · exact Or.inr (Or.inr (Or.inl ⟨.msg ("HTTP Status " ++ resp.status), by simp [hdo, hs]⟩))
  · rcases re with inner | s
    · exact Or.inl ⟨.msg ("bad URL: " ++ inner), by simp [Err.text]⟩
    · exact Or.inl ⟨.msg ("bad URL: " ++ s), by simp [Err.text]⟩

theorem processURL_shape (env : Env) (url : String) (r n : Nat) :
    (∃ e evs, processURL env url r n = (("", some e), evs, n) ∧
       (evs = [] ∨ evs = [Ev.doCall url])) ∨
    (∃ e, processURL env url r n =
       (("", some e), [Ev.doCall url, .openBody n, .closeBody n], n + 1)) ∨
    (∃ resp : Response, processURL env url r n =
       (processHTML resp.body.tokens resp.body.tokErr,
        [Ev.doCall url, .openBody n, .closeBody n], n + 1)) ∨
    (∃ next, ¬ maxRedirects < r + 1 ∧ processURL env url r n =
       ((processURL env next (r + 1) (n + 1)).1,
        [Ev.doCall url, Ev.openBody n] ++ (processURL env next (r + 1) (n + 1)).2.1 ++
          [Ev.closeBody n],
        (processURL env next (r + 1) (n + 1)).2.2)) := by
  rw [processURL]
  rcases fetch_shape env url n with ⟨e, hf⟩ | ⟨e, hf⟩ | ⟨e, hf⟩ | ⟨resp, hf⟩
  · exact Or.inl ⟨.msg ("fetch error: " ++ e.text), [], by simp [hf]⟩
  · exact Or.inl ⟨.msg ("fetch error: " ++ e.text), [Ev.doCall url], by simp [hf]⟩
  · exact Or.inr (Or.inl ⟨.msg ("fetch error: " ++ e.text), by simp [hf]⟩)
  · rcases hct : env.parseMediaType resp.contentType with cause | media
    · exact Or.inr (Or.inl
        ⟨.msg ("bad Content Type " ++ goQuote resp.contentType ++ ": " ++ cause),
         by simp [hf, hct]⟩)
    · by_cases hh : media = "text/html"
      · exact Or.inr (Or.inr (Or.inl ⟨resp, by simp [hf, hct, hh]⟩))
      · by_cases hx : media = "text/xml" ∨ media = "application/xml"
        · rcases hpx : (processXML resp.body.lines resp.body.scanErr).2 with _ | e
          · by_cases hlim : maxRedirects < r + 1
            · refine Or.inr (Or.inl ⟨.msg "too many redirects", ?_⟩)
              simp [hf, hct, hh, hx, hpx, hlim]
            · refine Or.inr (Or.inr (Or.inr
                ⟨(processXML resp.body.lines resp.body.scanErr).1, hlim, ?_⟩))
              simp [hf, hct, hh, hx, hpx, hlim]
          · exact Or.inr (Or.inl ⟨e, by simp [hf, hct, hh, hx, hpx]⟩)
        · exact Or.inr (Or.inl
            ⟨.msg ("unexpected Content Type " ++ goQuote resp.contentType),
             by simp [hf, hct, hh, hx]⟩)

theorem processHTML_err_empty :
    ∀ (toks : List HTMLToken) (terr : Err) (e : Err),
      (processHTML toks terr).2 = some e → (processHTML toks terr).1 = ""
  | [], _, _, _ => rfl
  | .startTag tag attrs :: rest, terr, e, h => by
    by_cases ht : tag = "button"
    · rcases hfa : findFeedURL attrs with _ | v
      · simp only [processHTML, ht, if_true, hfa] at h ⊢
        exact processHTML_err_empty rest terr e h
      · simp [processHTML, ht, hfa] at h
    · simp only [processHTML, ht, if_false] at h ⊢
      exact processHTML_err_empty rest terr e h
  | .other :: rest, terr, e, h => by
    simp only [processHTML] at h ⊢
    exact processHTML_err_empty rest terr e h

theorem processXML_err_empty :
    ∀ (lines : List String) (scanErr : Option Err) (e : Err),
      (processXML lines scanErr).2 = some e → (processXML lines scanErr).1 = ""
  | [], _, _, _ => rfl
  | [line], scanErr, e, h => by
    by_cases hm : line = markerLine
    · simp only [processXML.eq_2, if_pos hm]
    · simp only [processXML.eq_2, if_neg hm]
      rfl
  | line :: next :: rest2, scanErr, e, h => by
    by_cases hm : line = markerLine
    · rcases hg : reGotoFind next with _ | cap
      · simp only [processXML.eq_3, if_pos hm, hg] at h ⊢
        exact processXML_err_empty rest2 scanErr e h
      · simp only [processXML.eq_3, if_pos hm, hg] at h
        exact Option.noConfusion h
    · simp only [processXML.eq_3, if_neg hm] at h ⊢
      exact processXML_err_empty (next :: rest2) scanErr e h

theorem processURL_err_empty (env : Env) :
    ∀ (fuel : Nat) (url : String) (r n : Nat), maxRedirects + 1 - r ≤ fuel →
      ∀ e, (processURL env url r n).1.2 = some e → (processURL env url r n).1.1 = "" := by
  intro fuel
  induction fuel with
  | zero =>
    intro url r n hb e h
    rcases processURL_shape env url r n with ⟨e', evs, heq, -⟩ | ⟨e', heq⟩ |
      ⟨resp, heq⟩ | ⟨next, hg, heq⟩
    · rw [heq]
    · rw [heq]
    · rw [heq] at h ⊢
      exact processHTML_err_empty _ _ e h
    · exfalso
      simp [maxRedirects] at hb hg
      omega
  | succ f ih =>
    intro url r n hb e h
    rcases processURL_shape env url r n with ⟨e', evs, heq, -⟩ | ⟨e', heq⟩ |
      ⟨resp, heq⟩ | ⟨next, hg, heq⟩
    · rw [heq]
    · rw [heq]
    · rw [heq] at h ⊢
      exact processHTML_err_empty _ _ e h
    · rw [heq] at h ⊢
      exact ih next (r + 1) (n + 1) (by simp [maxRedirects] at *; omega) e h

/-! ## Concrete witness environments -/

/-- A 200 HTML response whose button carries the feed URL. -/
def okHTML : Response :=
  ⟨200, "200 OK", "text/html",
   ⟨[.startTag "button" [("feed-url", "http://feeds.example.com/pod")]], .eof, [], none⟩⟩

/-- A 200 XML response whose plist redirects to `next`. -/
def okXML (next : String) : Response :=
  ⟨200, "200 OK", "text/xml",
   ⟨[], .eof, [markerLine, gotoPre ++ next ++ gotoSuf], none⟩⟩

/-- A stub for `mime.ParseMediaType` behaving as the real parser does on
the handful of header values the witnesses use. -/
def mimeStub : String → Except String String := fun ct =>
  if ct = "text/html" then .ok "text/html"
  else if ct = "text/xml" then .ok "text/xml"
  else if ct = "image/png" then .ok "image/png"
  else .error "mime: no media type"

/-- Environment serving the 3-hop redirect chain a → b → c → d, with the
feed page at d. -/
def chainEnv : Env :=
  ⟨fun _ => none, mimeStub, fun req =>
    if req.url = "a" then .ok (okXML "b")
    else if req.url = "b" then .ok (okXML "c")
    else if req.url = "c" then .ok (okXML "d")
    else if req.url = "d" then .ok okHTML
    else .error (.msg "no such host")⟩

/-- Environment serving a cyclic redirect x → x. -/
def cycleEnv : Env :=
  ⟨fun _ => none, mimeStub, fun req =>
    if req.url = "x" then .ok (okXML "x") else .error (.msg "no such host")⟩

/-! ## Claim C1 -/

/-- C1: the redirect counter starts at 0 (the top-level call runs
`processURL` with counter 0) and is incremented once per successfully
extracted structured redirect. Chains needing at most 3 follow-ups
(`vs.length ≤ maxRedirects` intermediate targets) resolve to the feed;
any chain needing a 4th follow-up — cyclic ones included, since nothing
below distinguishes the targets — fails with the error
`too many redirects`, exactly four transport fetches occur (the four
documents already retrieved), and the over-limit target is never fetched
when it is not one of those four. -/
theorem redirect_limit_spec (env : Env) (u : String) :
    (∀ vs feed, ChainFrom env u vs feed → vs.length ≤ maxRedirects →
       (ToRSSClient env u).1 = (feed, none)) ∧
    (∀ v1 v2 v3 v4, RedirectSeq env u [v1, v2, v3, v4] →
       (ToRSSClient env u).1 = ("", some (Err.msg "too many redirects")) ∧
       doCalls (ToRSSClient env u).2 = [u, v1, v2, v3] ∧
       (v4 ∉ [u, v1, v2, v3] → Ev.doCall v4 ∉ (ToRSSClient env u).2)) := by
  constructor
  · intro vs feed hch hlen
    have h := chain_ok vs u feed 0 0 hch (by omega)
    simp [ToRSSClient, h, translateEOF]
  · intro v1 v2 v3 v4 hseq
    have h := @over_limit env u v1 v2 v3 v4 0 hseq
    refine ⟨?_, ?_, ?_⟩
    · simp [ToRSSClient, h, translateEOF]
    · simp [ToRSSClient, h, doCalls_append, doCalls]
    · intro hne hmem
      rw [← mem_doCalls] at hmem
      simp [ToRSSClient, h, doCalls_append, doCalls] at hmem
      simp at hne
      rcases hmem with rfl | rfl | rfl | rfl <;> simp at hne

/-- Witness for C1: the concrete 3-hop chain resolves to its feed, and the
concrete cyclic chain fails with `too many redirects`. -/
theorem redirect_limit_witness :
    (ToRSSClient chainEnv "a").1 = ("http://feeds.example.com/pod", none) ∧
    (ToRSSClient cycleEnv "x").1 = ("", some (Err.msg "too many redirects")) := by
  constructor
  · refine (redirect_limit_spec chainEnv "a").1 ["b", "c", "d"]
      "http://feeds.example.com/pod" ?_ (by decide)
    exact ⟨⟨rfl, okXML "b", rfl, rfl, Or.inl rfl, by decide⟩,
           ⟨rfl, okXML "c", rfl, rfl, Or.inl rfl, by decide⟩,
           ⟨rfl, okXML "d", rfl, rfl, Or.inl rfl, by decide⟩,
           ⟨rfl, okHTML, rfl, rfl, rfl, by decide⟩⟩
  · refine ((redirect_limit_spec cycleEnv "x").2 "x" "x" "x" "x" ?_).1
    have hx : ServesRedirect cycleEnv "x" "x" :=
      ⟨rfl, okXML "x", rfl, rfl, Or.inl rfl, by decide⟩
    exact ⟨hx, hx, hx, hx, trivial⟩

/-- A 200 HTML response with no feed button anywhere; its tokenizer ends
with a clean end of input. -/
def noFeedHTML : Response :=
  ⟨200, "200 OK", "text/html", ⟨[.startTag "div" []], .eof, [], none⟩⟩

/-- Environment serving the feedless HTML page at `u`. -/
def noFeedEnv : Env :=
  ⟨fun _ => none, mimeStub, fun req =>
    if req.url = "u" then .ok noFeedHTML else .error (.msg "no such host")⟩

/-! ## Claim C2 -/

/-- C2: when the resolution bottoms out in the internal end-of-input signal
`io.EOF` (either extractor ran out of input without a match), the public
call returns the sentinel `ErrNoFeed`, whose message is `no feed found`;
the translation happens once at the public boundary: a redirect hop
propagates the inner result's error unchanged (so an `eof` arising at any
depth reaches the top untranslated), and `io.EOF` itself is never returned
by the public call. -/
theorem noFeed_translation_spec (env : Env) (url : String) :
    ((processURL env url 0 0).1.2 = some Err.eof →
       (ToRSSClient env url).1.2 = some Err.noFeed) ∧
    (∀ e, (ToRSSClient env url).1.2 = some e → e ≠ Err.eof) ∧
    (∀ u v r n, ServesRedirect env u v → r + 1 ≤ maxRedirects →
       (processURL env u r n).1.2 = (processURL env v (r + 1) (n + 1)).1.2) ∧
    Err.noFeed.text = "no feed found" := by
  refine ⟨?_, ?_, ?_, rfl⟩
  · intro h
    rcases hp : (processURL env url 0 0).1 with ⟨s, o⟩
    rw [hp] at h
    simp only at h
    subst h
    simp [ToRSSClient, hp, translateEOF]
  · intro e he
    rcases hp : (processURL env url 0 0).1 with ⟨s, o⟩
    rcases o with _ | e'
    · simp [ToRSSClient, hp, translateEOF] at he
    · rcases e' with _ | _ | m <;>
        simp [ToRSSClient, hp, translateEOF] at he <;>
        simp [← he]
  · intro u v r n h hr
    rw [processURL_redirect_step n h hr]

/-- Witness for C2: the feedless HTML page resolves to `ErrNoFeed`. -/
theorem noFeed_translation_witness :
    (ToRSSClient noFeedEnv "u").1.2 = some Err.noFeed := by
  apply (noFeed_translation_spec noFeedEnv "u").1
  rw [@processURL_html noFeedEnv "u" 0 0 noFeedHTML rfl rfl rfl rfl]
  decide

/-! ## Claim C10 -/

/-- C10: whenever the public call returns a non-nil error the feed string
it returns is exactly empty; equivalently a non-empty feed is only
returned with a nil error. Every error exit of `processURL` pairs the
error with the empty string, and the boundary translation preserves the
feed component. -/
theorem err_empty_feed_spec (env : Env) (url : String) :
    ∀ e, (ToRSSClient env url).1.2 = some e → (ToRSSClient env url).1.1 = "" := by
  intro e he
  rcases hp : (processURL env url 0 0).1 with ⟨s, o⟩
  rcases o with _ | e'
  · simp [ToRSSClient, hp, translateEOF] at he
  · have hs : s = "" := by
      have := processURL_err_empty env (maxRedirects + 1) url 0 0 (by omega) e' (by rw [hp])
      rw [hp] at this
      exact this
    subst hs
    rcases e' with _ | _ | m <;> simp [ToRSSClient, hp, translateEOF]

/-- Witness for C10: the cyclic-redirect failure returns the empty feed
string together with its error. -/
theorem err_empty_feed_witness : (ToRSSClient cycleEnv "x").1.1 = "" := by
  apply err_empty_feed_spec cycleEnv "x" (Err.msg "too many redirects")
  have hx : ServesRedirect cycleEnv "x" "x" :=
    ⟨rfl, okXML "x", rfl, rfl, Or.inl rfl, by decide⟩
  simp [ToRSSClient, over_limit 0 ⟨hx, hx, hx, hx, trivial⟩, translateEOF]

/-! ## Claim C3 -/

/-- A token on which the `processHTML` loop short-circuits: a `button`
start tag carrying a non-empty `feed-url` attribute. -/
def tokenHasFeed : HTMLToken → Bool
  | .startTag tag attrs => tag = "button" && (findFeedURL attrs).isSome
  | .other => false

theorem processHTML_found :
    ∀ (pre : List HTMLToken) (attrs : List (String × String)) (suf : List HTMLToken)
      (terr : Err) (v : String),
      (∀ t ∈ pre, tokenHasFeed t = false) → findFeedURL attrs = some v →
      processHTML (pre ++ .startTag "button" attrs :: suf) terr = (v, none)
  | [], attrs, suf, terr, v, _, hf => by
    simp only [List.nil_append, processHTML, hf]
    rw [if_pos trivial]
  | t :: pre, attrs, suf, terr, v, hall, hf => by
    have h0 : tokenHasFeed t = false := hall t (List.mem_cons_self t pre)
    have ih := processHTML_found pre attrs suf terr v
      (fun x hx => hall x (List.mem_cons_of_mem t hx)) hf
    cases t with
    | other =>
      simpa only [List.cons_append, processHTML] using ih
    | startTag tag ats =>
      by_cases ht : tag = "button"
      · subst ht
        have hnone : findFeedURL ats = none := by
          simp only [tokenHasFeed, Bool.and_eq_false_iff] at h0
          rcases h0 with h0 | h0
          · simp at h0
          · exact Option.not_isSome_iff_eq_none.mp (by simp [h0])
        simp only [List.cons_append, processHTML, if_pos rfl, hnone]
        exact ih
      · simp only [List.cons_append, processHTML, if_neg ht]
        exact ih

theorem processHTML_notFound :
    ∀ (toks : List HTMLToken) (terr : Err),
      (∀ t ∈ toks, tokenHasFeed t = false) → processHTML toks terr = ("", some terr)
  | [], terr, _ => rfl
  | t :: toks, terr, hall => by
    have h0 : tokenHasFeed t = false := hall t (List.mem_cons_self t toks)
    have ih := processHTML_notFound toks terr
      (fun x hx => hall x (List.mem_cons_of_mem t hx))
    cases t with
    | other => simpa only [processHTML] using ih
    | startTag tag ats =>
      by_cases ht : tag = "button"
      · subst ht
        have hnone : findFeedURL ats = none := by
          simp only [tokenHasFeed, Bool.and_eq_false_iff] at h0
          rcases h0 with h0 | h0
          · simp at h0
          · exact Option.not_isSome_iff_eq_none.mp (by simp [h0])
        simp only [processHTML, if_pos rfl, hnone]
        exact ih
      · simp only [processHTML, if_neg ht]
        exact ih

theorem findFeedURL_skip :
    ∀ (as : List (String × String)) (v : String) (bs : List (String × String)),
      (∀ p ∈ as, p.1 ≠ "feed-url" ∨ p.2 = "") → v ≠ "" →
      findFeedURL (as ++ ("feed-url", v) :: bs) = some v
  | [], v, bs, _, hv => by
    simp only [List.nil_append, findFeedURL]
    rw [if_pos ⟨trivial, hv⟩]
  | (a, w) :: as, v, bs, hall, hv => by
    have h0 := hall (a, w) (List.mem_cons_self _ as)
    have ih := findFeedURL_skip as v bs
      (fun p hp => hall p (List.mem_cons_of_mem _ hp)) hv
    have hno : ¬ (a = "feed-url" ∧ w ≠ "") := by
      rcases h0 with h0 | h0
      · exact fun hc => h0 hc.1
      · exact fun hc => hc.2 h0
    simp only [List.cons_append, findFeedURL, if_neg hno]
    exact ih

/-- C3: `processHTML` returns, with a nil error, the value of the first
non-empty `feed-url` attribute on the first `button` start tag carrying
one — independent of every later token and of the terminating signal
(short-circuit); within one tag `findFeedURL` skips attributes that are
not named `feed-url` or have empty values and returns the first non-empty
`feed-url` value; and if the stream ends without such an attribute the
result is `""` with the tokenizer's terminating signal (`Err.eof` on end
of input, a structural error as-is) propagated unchanged. -/
theorem processHTML_spec (toks : List HTMLToken) (terr : Err) :
    (∀ pre attrs suf v, toks = pre ++ HTMLToken.startTag "button" attrs :: suf →
       (∀ t ∈ pre, tokenHasFeed t = false) → findFeedURL attrs = some v →
       processHTML toks terr = (v, none)) ∧
    ((∀ t ∈ toks, tokenHasFeed t = false) →
       processHTML toks terr = ("", some terr)) ∧
    (∀ as v bs, (∀ p ∈ as, p.1 ≠ "feed-url" ∨ p.2 = "") → v ≠ "" →
       findFeedURL (as ++ ("feed-url", v) :: bs) = some v) := by
  refine ⟨?_, processHTML_notFound toks terr, findFeedURL_skip⟩
  intro pre attrs suf v hsplit hall hf
  rw [hsplit]
  exact processHTML_found pre attrs suf terr v hall hf

/-- Witness for C3: the extractor skips a non-button tag carrying
`feed-url`, skips a foreign attribute and an empty `feed-url` on the
button, and returns the first non-empty value without reaching the later
button. -/
theorem processHTML_spec_witness :
    processHTML
      [HTMLToken.other,
       .startTag "div" [("feed-url", "skip")],
       .startTag "button" [("x", "1"), ("feed-url", ""), ("feed-url", "F")],
       .startTag "button" [("feed-url", "G")]] Err.eof = ("F", none) := by
  exact (processHTML_spec _ _).1
    [.other, .startTag "div" [("feed-url", "skip")]]
    [("x", "1"), ("feed-url", ""), ("feed-url", "F")]
    [.startTag "button" [("feed-url", "G")]] "F" rfl (by decide) (by decide)

/-! ## Claim C4 -/

theorem stripLead_eq :
    ∀ (p l r : List Char), stripLead p l = some r → l = p ++ r
  | [], l, r, h => by
    simp only [stripLead, Option.some.injEq] at h
    simp [h]
  | _ :: _, [], r, h => Option.noConfusion h
  | p :: ps, c :: cs, r, h => by
    by_cases hc : c = p
    · simp only [stripLead, if_pos hc] at h
      have := stripLead_eq ps cs r h
      simp [hc, this]
    · simp only [stripLead, if_neg hc] at h
      exact Option.noConfusion h

theorem stripTrail_eq (suf l mid : List Char) (h : stripTrail suf l = some mid) :
    l = mid ++ suf := by
  unfold stripTrail at h
  rcases hs : stripLead suf.reverse l.reverse with _ | r
  · rw [hs] at h
    exact Option.noConfusion h
  · rw [hs] at h
    simp only [Option.map] at h
    have hrev := stripLead_eq suf.reverse l.reverse r hs
    have hl : l = (suf.reverse ++ r).reverse := by
      rw [← hrev, List.reverse_reverse]
    have hmid : mid = r.reverse := by
      injection h with h2
      exact h2.symm
    rw [hl, List.reverse_append, List.reverse_reverse, hmid]

theorem processXML_found :
    ∀ (pre : List String) (next : String) (rest : List String) (cap : String)
      (scanErr : Option Err),
      (∀ l ∈ pre, l ≠ markerLine) → reGotoFind next = some cap →
      processXML (pre ++ markerLine :: next :: rest) scanErr = (unescapeString cap, none)
  | [], next, rest, cap, scanErr, _, hg => by
    rw [List.nil_append, processXML.eq_3, if_pos rfl, hg]
  | p :: pre2, next, rest, cap, scanErr, hall, hg => by
    have hp : p ≠ markerLine := hall p (List.mem_cons_self p pre2)
    have ih := processXML_found pre2 next rest cap scanErr
      (fun l hl => hall l (List.mem_cons_of_mem p hl)) hg
    rcases pre2 with _ | ⟨q, pre3⟩
    · simp only [List.nil_append, List.cons_append] at ih ⊢
      rw [processXML.eq_3, if_neg hp]
      exact ih
    · simp only [List.cons_append] at ih ⊢
      rw [processXML.eq_3, if_neg hp]
      exact ih

theorem processXML_marker_last :
    ∀ (pre : List String) (scanErr : Option Err),
      (∀ l ∈ pre, l ≠ markerLine) →
      processXML (pre ++ [markerLine]) scanErr = ("", some (scanErr.getD Err.eof))
  | [], scanErr, _ => by
    rw [List.nil_append, processXML.eq_2, if_pos rfl]
  | p :: pre2, scanErr, hall => by
    have hp : p ≠ markerLine := hall p (List.mem_cons_self p pre2)
    have ih := processXML_marker_last pre2 scanErr
      (fun l hl => hall l (List.mem_cons_of_mem p hl))
    rcases pre2 with _ | ⟨q, pre3⟩
    · simp only [List.nil_append, List.cons_append] at ih ⊢
      rw [processXML.eq_3, if_neg hp]
      exact ih
    · simp only [List.cons_append] at ih ⊢
      rw [processXML.eq_3, if_neg hp]
      exact ih

/-- C4: the structured-redirect extractor scans for a line exactly equal to
the marker `<key>kind</key><string>Goto</string>`; at the first marker it
reads the following line and, if that line matches the anchored pattern
`^<key>url</key><string>(\S+)</string>$`, returns the capture with the
standard markup escapes unescaped, immediately (independent of all later
lines and of the scanner's terminating state). If the marker is the last
line (no next line exists), scanning stops and the end-of-scan signal is
returned (`io.EOF` when the line reader ended cleanly). A successful
`reGotoFind` match forces the anchored decomposition of the line into the
two pattern literals around a non-empty capture containing no `\s`
character. -/
theorem processXML_spec (scanErr : Option Err) :
    (∀ pre next rest cap, (∀ l ∈ pre, l ≠ markerLine) → reGotoFind next = some cap →
       processXML (pre ++ markerLine :: next :: rest) scanErr =
         (unescapeString cap, none)) ∧
    (∀ pre, (∀ l ∈ pre, l ≠ markerLine) →
       processXML (pre ++ [markerLine]) scanErr = ("", some (scanErr.getD Err.eof))) ∧
    (∀ line cap, reGotoFind line = some cap →
       line = gotoPre ++ cap ++ gotoSuf ∧ cap ≠ "" ∧
         cap.data.all (fun c => !goIsSpace c)) := by
  refine ⟨fun pre next rest cap h1 h2 => processXML_found pre next rest cap scanErr h1 h2,
          fun pre h1 => processXML_marker_last pre scanErr h1, ?_⟩
  intro line cap h
  unfold reGotoFind at h
  rcases hs : stripLead gotoPre.data line.data with _ | rest
  · rw [hs] at h
    exact Option.noConfusion h
  · rw [hs] at h
    dsimp only at h
    rcases ht : stripTrail gotoSuf.data rest with _ | mid
    · rw [ht] at h
      exact Option.noConfusion h
    · rw [ht] at h
      dsimp only at h
      by_cases hcond : mid ≠ [] ∧ mid.all (fun c => !goIsSpace c)
      · rw [if_pos hcond] at h
        have hcap : cap = ⟨mid⟩ := by
          cases h
          rfl
        subst hcap
        have hline : line.data = gotoPre.data ++ (mid ++ gotoSuf.data) := by
          rw [← stripTrail_eq gotoSuf.data rest mid ht]
          exact stripLead_eq gotoPre.data line.data rest hs
        refine ⟨?_, ?_, hcond.2⟩
        · apply String.ext
          simpa [String.data_append] using hline
        · intro hempty
          apply hcond.1
          have : (⟨mid⟩ : String).data = ("" : String).data := by rw [hempty]
          simpa using this
      · rw [if_neg hcond] at h
        exact Option.noConfusion h

/-- Witness for C4: a non-marker line is skipped, the marker is found, the
next line matches the pattern, and the capture is returned with `&amp;`
unescaped to `&`, ignoring the rest of the input. -/
theorem processXML_spec_witness :
    processXML
      ["<plist>", markerLine, "<key>url</key><string>a&amp;b</string>", "<x>"]
      none = ("a&b", none) :=
  (processXML_spec none).1 ["<plist>"] "<key>url</key><string>a&amp;b</string>"
    ["<x>"] "a&amp;b" (by decide) (by decide)

/-! ## Claim C9 -/

/-- C9: the line read immediately after a marker line is consumed solely as
the url-pattern candidate and is never compared against the marker: on the
input marker, marker, url-line the second marker is consumed as a (failed)
url candidate, the url-line is then compared against the marker (not the
pattern), and the extractor reaches end of input instead of returning the
URL. -/
theorem marker_consumed_spec (u cap : String) (h : reGotoFind u = some cap) :
    processXML [markerLine, markerLine, u] none = ("", some Err.eof) := by
  have hmk : reGotoFind markerLine = none := by decide
  have hu : u ≠ markerLine := by
    intro he
    rw [he, hmk] at h
    exact Option.noConfusion h
  rw [processXML.eq_3, if_pos rfl]
  have hm : reGotoFind markerLine = none := by decide
  rw [hm]
  show processXML [u] none = ("", some Err.eof)
  rw [processXML.eq_2, if_neg hu]
  rfl

/-- Witness for C9: a concrete url-pattern line after a doubled marker is
not returned; the extractor signals end of input. -/
theorem marker_consumed_witness :
    processXML [markerLine, markerLine, "<key>url</key><string>z</string>"] none =
      ("", some Err.eof) :=
  marker_consumed_spec "<key>url</key><string>z</string>" "z" (by decide)

/-! ## Claim C5 -/

/-- A 200 response with a well-formed but unsupported media type. -/
def pngResp : Response := ⟨200, "200 OK", "image/png", ⟨[], .eof, [], none⟩⟩

/-- Environment serving the PNG response at `u`. -/
def pngEnv : Env :=
  ⟨fun _ => none, mimeStub, fun req =>
    if req.url = "u" then .ok pngResp else .error (.msg "no such host")⟩

/-- C5: after a successful fetch the orchestrator dispatches on the parsed
media type of the raw Content-Type header: `text/html` runs the HTML
extractor and its pair is the result; `text/xml` or `application/xml` run
the structured-redirect extractor, propagate its error, or recurse on the
extracted target with the incremented counter; any other parsed media type
fails with `unexpected Content Type "<raw>"`; and an unparsable header
fails with `bad Content Type "<raw>": <cause>`. -/
theorem dispatch_spec (env : Env) (url : String) (r n : Nat) (resp : Response)
    (h0 : env.newReqErr url = none)
    (h1 : env.doReq ⟨"GET", url, iTunesUA⟩ = .ok resp)
    (h2 : resp.statusCode = 200) :
    (env.parseMediaType resp.contentType = .ok "text/html" →
       (processURL env url r n).1 = processHTML resp.body.tokens resp.body.tokErr) ∧
    (∀ m, env.parseMediaType resp.contentType = .ok m →
       (m = "text/xml" ∨ m = "application/xml") →
       (∀ s e, processXML resp.body.lines resp.body.scanErr = (s, some e) →
          (processURL env url r n).1 = ("", some e)) ∧
       (∀ next, processXML resp.body.lines resp.body.scanErr = (next, none) →
          r + 1 ≤ maxRedirects →
          (processURL env url r n).1 = (processURL env next (r + 1) (n + 1)).1)) ∧
    (∀ m, env.parseMediaType resp.contentType = .ok m → m ≠ "text/html" →
       m ≠ "text/xml" → m ≠ "application/xml" →
       (processURL env url r n).1 =
         ("", some (Err.msg ("unexpected Content Type " ++ goQuote resp.contentType)))) ∧
    (∀ cause, env.parseMediaType resp.contentType = .error cause →
       (processURL env url r n).1 =
         ("", some (Err.msg ("bad Content Type " ++ goQuote resp.contentType ++
           ": " ++ cause)))) := by
  refine ⟨?_, ?_, ?_, ?_⟩
  · intro hct
    rw [processURL_html r n h0 h1 h2 hct]
  · intro m hct hm
    constructor
    · intro s e hx
      rw [processURL]
      rcases hm with rfl | rfl <;> simp [fetch_ok n h0 h1 h2, hct, hx]
    · intro next hx hr
      rw [processURL]
      rcases hm with rfl | rfl <;>
        simp [fetch_ok n h0 h1 h2, hct, hx, Nat.not_lt.mpr hr]
  · intro m hct hh hx1 hx2
    rw [processURL]
    simp [fetch_ok n h0 h1 h2, hct, hh, hx1, hx2]
  · intro cause hct
    rw [processURL]
    simp [fetch_ok n h0 h1 h2, hct]

/-- Witness for C5: a 200 response with media type `image/png` fails with
the unexpected-content-type message built from the raw header. -/
theorem dispatch_spec_witness :
    (processURL pngEnv "u" 0 0).1 =
      ("", some (Err.msg ("unexpected Content Type " ++ goQuote "image/png"))) :=
  (dispatch_spec pngEnv "u" 0 0 pngResp rfl rfl rfl).2.2.1 "image/png" rfl
    (by decide) (by decide) (by decide)

/-! ## Claim C6 -/

/-- Environment in which every URL fails `http.NewRequest` with a
`*url.Error` wrapping the cause `missing protocol scheme`, as `url.Parse`
produces for `://x`. -/
def badUrlEnv : Env :=
  ⟨fun _ => some (.urlError "missing protocol scheme"), mimeStub,
   fun _ => .error (.msg "unreachable")⟩

/-- C6 counterexample: the claim states the resolution error's message is
exactly the parser's innermost cause with no additional prefix; on a URL
whose parse fails with inner cause `missing protocol scheme` the code
returns the message `fetch error: bad URL: missing protocol scheme`,
which differs from the bare cause. -/
theorem badURL_message_counterexample :
    (ToRSSClient badUrlEnv "://x").1.2 =
      some (Err.msg "fetch error: bad URL: missing protocol scheme") ∧
    "fetch error: bad URL: missing protocol scheme" ≠ "missing protocol scheme" := by
  constructor
  · rw [ToRSSClient, processURL]
    simp [fetch, newRequest, badUrlEnv, translateEOF, Err.text]
  · decide

/-- C6 (amended): for a malformed target URL the resolution error's message
is the underlying parser's innermost cause — `newRequest` strips the
URL-library `*url.Error` wrapping — prefixed by `fetch error: bad URL: `
(the `fetch` wrapper adds `bad URL: `, the orchestrator adds
`fetch error: `). -/
theorem badURL_message_spec (env : Env) (url : String) (r n : Nat) (inner : String)
    (h : env.newReqErr url = some (.urlError inner)) :
    (processURL env url r n).1 =
      ("", some (.msg ("fetch error: bad URL: " ++ inner))) ∧
    (ToRSSClient env url).1 =
      ("", some (.msg ("fetch error: bad URL: " ++ inner))) := by
  have hp : ∀ (r n : Nat), (processURL env url r n).1 =
      ("", some (.msg ("fetch error: bad URL: " ++ inner))) := by
    intro r n
    rw [processURL]
    simp [fetch, newRequest, h, Err.text, ← String.append_assoc]
  exact ⟨hp r n, by simp [ToRSSClient, hp 0 0, translateEOF]⟩

/-- Witness for C6 (amended): the concrete parse failure yields the
prefixed innermost cause. -/
theorem badURL_message_witness :
    (processURL badUrlEnv "://x" 0 0).1 =
      ("", some (Err.msg ("fetch error: bad URL: " ++ "missing protocol scheme"))) :=
  (badURL_message_spec badUrlEnv "://x" 0 0 "missing protocol scheme" rfl).1

/-! ## Claim C7 -/

/-- A 404 response; a Go client fills `Status` with the code followed by
the standard reason phrase. -/
def resp404 : Response := ⟨404, "404 Not Found", "text/html", ⟨[], .eof, [], none⟩⟩

/-- Environment serving the 404 response everywhere. -/
def env404 : Env := ⟨fun _ => none, mimeStub, fun _ => .ok resp404⟩

/-- C7 counterexample: the claim states the failure message has the form
`bad HTTP Status: <code> <reason-or-default>`; on a 404 response the code
produces `fetch error: HTTP Status 404 Not Found`, which differs from
`bad HTTP Status: 404 Not Found`. -/
theorem httpStatus_message_counterexample :
    (ToRSSClient env404 "u").1.2 =
      some (Err.msg "fetch error: HTTP Status 404 Not Found") ∧
    "fetch error: HTTP Status 404 Not Found" ≠ "bad HTTP Status: 404 Not Found" := by
  constructor
  · rw [ToRSSClient, processURL]
    simp [fetch, newRequest, env404, resp404, translateEOF, Err.text]
  · decide

/-- C7 (amended): on a fetched response with HTTP status ≠ 200 the body is
closed immediately (inside `fetch`, before the orchestrator returns — the
trace is exactly doCall, open, close) and resolution fails with the message
`fetch error: HTTP Status <resp.Status>`, where for a Go transport
`resp.Status` is `<code> <reason-or-default>` (the standard reason phrase
when the code is recognized, otherwise Go's default `status code <code>`
embedding the numeric code). -/
theorem httpStatus_message_spec (env : Env) (url : String) (r n : Nat)
    (resp : Response) (h0 : env.newReqErr url = none)
    (h1 : env.doReq ⟨"GET", url, iTunesUA⟩ = .ok resp)
    (h2 : resp.statusCode ≠ 200) :
    (processURL env url r n).1 =
      ("", some (.msg ("fetch error: HTTP Status " ++ resp.status))) ∧
    (processURL env url r n).2.1 = [.doCall url, .openBody n, .closeBody n] := by
  have hf : fetch env url n =
      (.error (.msg ("HTTP Status " ++ resp.status)),
       [.doCall url, .openBody n, .closeBody n], n + 1) := by
    simp [fetch, newRequest, h0, h1, h2]
  rw [processURL]
  constructor <;> simp [hf, Err.text, ← String.append_assoc]

/-- Witness for C7 (amended): the 404 response yields the wrapped status
message, and its body is opened and closed within the same hop. -/
theorem httpStatus_message_witness :
    (processURL env404 "u" 0 0).1 =
      ("", some (Err.msg ("fetch error: HTTP Status " ++ "404 Not Found"))) :=
  (httpStatus_message_spec env404 "u" 0 0 resp404 rfl rfl (by decide)).1

/-! ## Claim C8 -/

theorem processURL_count (env : Env) :
    ∀ (fuel : Nat) (url : String) (r n : Nat), maxRedirects + 1 - r ≤ fuel →
      ∀ id, ((processURL env url r n).2.1.count (Ev.openBody id)) =
        ((processURL env url r n).2.1.count (Ev.closeBody id)) := by
  intro fuel
  induction fuel with
  | zero =>
    intro url r n hb id
    rcases processURL_shape env url r n with ⟨e, evs, heq, hevs⟩ | ⟨e, heq⟩ |
      ⟨resp, heq⟩ | ⟨next, hg, heq⟩
    · rw [heq]
      rcases hevs with rfl | rfl <;> simp [List.count_cons, List.count_nil]
    · rw [heq]
      simp [List.count_cons, List.count_nil]
    · rw [heq]
      simp [List.count_cons, List.count_nil]
    · exfalso
      simp [maxRedirects] at hb hg
      omega
  | succ f ih =>
    intro url r n hb id
    rcases processURL_shape env url r n with ⟨e, evs, heq, hevs⟩ | ⟨e, heq⟩ |
      ⟨resp, heq⟩ | ⟨next, hg, heq⟩
    · rw [heq]
      rcases hevs with rfl | rfl <;> simp [List.count_cons, List.count_nil]
    · rw [heq]
      simp [List.count_cons, List.count_nil]
    · rw [heq]
      simp [List.count_cons, List.count_nil]
    · rw [heq]
      have hr := ih next (r + 1) (n + 1) (by simp [maxRedirects] at *; omega) id
      simp [List.count_append, List.count_cons, List.count_nil, hr]

/-- C8: every response body obtained from the transport during a resolution
call is closed by that call on every exit path: in the final trace of any
(sub)call, and of the public call, each body id has as many close events as
open events (bodies of non-200 responses are closed inside `fetch`; all
others by the orchestrator's deferred close, which on the recursive path
runs after the recursion's events, before the call returns). -/
theorem body_close_spec (env : Env) (url : String) (r n id : Nat) :
    ((processURL env url r n).2.1.count (Ev.openBody id)) =
      ((processURL env url r n).2.1.count (Ev.closeBody id)) ∧
    ((ToRSSClient env url).2.count (Ev.openBody id)) =
      ((ToRSSClient env url).2.count (Ev.closeBody id)) := by
  refine ⟨processURL_count env (maxRedirects + 1) url r n (by omega) id, ?_⟩
  show ((processURL env url 0 0).2.1.count (Ev.openBody id)) =
    ((processURL env url 0 0).2.1.count (Ev.closeBody id))
  exact processURL_count env (maxRedirects + 1) url 0 0 (by omega) id

end Itunes
